import Mathlib

/-
Verification of the `regedit.py` Ansible module (src/modules/regedit.py):
a shallow embedding of its parser (`read_registry`), serializer
(`write_registry`), lookup helper (`_in`) and CRUD operations, over which
the spec's claims are settled.

Modelling conventions:
  * Python strings are `List Char` (named `Str`); `.lower()` is mapped
    `Char.toLower` (the inputs of interest are ASCII).
  * Python dicts are association lists with Python-dict update semantics:
    setting an existing key replaces its value in place, setting a fresh
    key appends (insertion order is preserved, as the code relies on).
  * Functions that can raise an uncaught exception in Python (KeyError,
    UnboundLocalError, AttributeError, PermissionError) return an
    `Option`; `none` is the uncaught exception.
  * The process-wide `IGNORE_CASE` flag is threaded as an explicit `ic`
    parameter into every function that reads it.
  * `os.linesep` is modelled as `'\n'` (the module targets Linux hosts).
  * The three `re` patterns of `read_registry` are embedded by their
    `search` semantics: leftmost start position, greedy `(?P<KEY>.+)?`
    (the longest closing `"=` wins, group absent as a fallback), greedy
    `(?P<VAL>.*)`.  A Python `None` capture for KEY is `Option.none`.
-/

namespace Regedit

abbrev Str := List Char

/-- Python whitespace for `str.strip`/`str.rstrip` (ASCII part). -/
def isWS (c : Char) : Bool :=
  c == ' ' || c == '\t' || c == '\n' || c == '\r' || c == '\x0b' || c == '\x0c'

def rstrip (s : Str) : Str := (s.reverse.dropWhile isWS).reverse

def lstrip (s : Str) : Str := s.dropWhile isWS

/-- `str.strip()`. -/
def strip (s : Str) : Str := lstrip (rstrip s)

/-- `str.lower()` (ASCII). -/
def lower (s : Str) : Str := s.map Char.toLower

/-- Character of `l` at index `i`; out-of-range reads give `' '`, a
character none of the patterns accept, so it encodes "no char here". -/
def ch (l : Str) (i : Nat) : Char := l.getD i ' '

def noNl (s : Str) : Bool :=
  match s with
  | [] => true
  | c :: s => !(c == '\n') && noNl s

-- ---------------------------------------------------------------------
-- Python dict as an association list (insertion-ordered)
-- ---------------------------------------------------------------------

/-- `d.get(k)` / `d[k]` lookup. -/
def alGet {α : Type} : List (Str × α) → Str → Option α
  | [], _ => none
  | (k', v) :: m, k => if k' = k then some v else alGet m k

/-- `d[k] = v`: replace in place if present, append if fresh. -/
def alSet {α : Type} : List (Str × α) → Str → α → List (Str × α)
  | [], k, v => [(k, v)]
  | (k', v') :: m, k, v =>
      if k' = k then (k', v) :: m else (k', v') :: alSet m k v

/-- `del d[k]` / `d.pop(k)` (the key is assumed present by callers;
deleting an absent key is modelled at the call sites). -/
def alDel {α : Type} : List (Str × α) → Str → List (Str × α)
  | [], _ => []
  | (k', v') :: m, k => if k' = k then m else (k', v') :: alDel m k

def keys {α : Type} (m : List (Str × α)) : List Str := m.map Prod.fst

abbrev KeySet := List (Str × Str)
abbrev Registry := List (Str × KeySet)

instance instDecEqKeySet : DecidableEq KeySet := inferInstance
instance instDecEqRegistry : DecidableEq Registry := inferInstance
instance instDecEqOpResult : DecidableEq (Option (Registry × String)) := inferInstance

-- ---------------------------------------------------------------------
-- The `_in` lookup helper (reads the global IGNORE_CASE)
-- ---------------------------------------------------------------------

/-- Python `needle in haystack` over a list of strings. -/
def pyMem (needle : Str) : List Str → Bool
  | [] => false
  | h :: t => if needle = h then true else pyMem needle t

/-- `_in(needle, haystack)`: lower-cases both sides when IGNORE_CASE. -/
def pyIn (ic : Bool) (needle : Str) (haystack : List Str) : Bool :=
  if ic then pyMem (lower needle) (haystack.map lower) else pyMem needle haystack

-- ---------------------------------------------------------------------
-- The three `re` patterns of read_registry
--   pkv_m = r'"(?P<KEY>.+)?"=(?P<VAL>.*)\\'
--   pkv_q = r'"(?P<KEY>.+)?"="(?P<VAL>.*)"'
--   pkv_b = r'"(?P<KEY>.+)?"=(?P<VAL>.*)'
-- A close position `j` is a `"` at `j` followed by `=` at `j+1`;
-- `cond*` adds each pattern's constraint on what must follow the close.
-- ---------------------------------------------------------------------

def condB (l : Str) (j : Nat) : Bool :=
  decide (ch l j = '"') && decide (ch l (j+1) = '=')

/-- pkv_m needs a (greedily last) `\` somewhere at position `≥ j+2`. -/
def condM (l : Str) (j : Nat) : Bool :=
  condB l j && (List.range l.length).any (fun k => decide (j+1 < k) && decide (ch l k = '\\'))

/-- pkv_q needs a `"` right after the `=` and a closing `"` after that. -/
def condQ (l : Str) (j : Nat) : Bool :=
  condB l j && decide (ch l (j+2) = '"') &&
    (List.range l.length).any (fun k => decide (j+2 < k) && decide (ch l k = '"'))

/-- Leftmost start position of a match: the first `"` having some close
position after it (re.search scans start positions left to right). -/
def startPos (cond : Str → Nat → Bool) (l : Str) : Option Nat :=
  (List.range l.length).find?
    (fun i => decide (ch l i = '"') && (List.range l.length).any (fun j => decide (i < j) && cond l j))

/-- The close chosen by the greedy `(?P<KEY>.+)?`: the largest close
position `≥ i+2` (longest nonempty KEY), if any. -/
def closePos (cond : Str → Nat → Bool) (l : Str) (i : Nat) : Option Nat :=
  ((List.range l.length).filter (fun j => decide (i+2 ≤ j) && cond l j)).getLast?

def matchM (l : Str) : Bool := (startPos condM l).isSome
def matchQ (l : Str) : Bool := (startPos condQ l).isSome
def matchB (l : Str) : Bool := (startPos condB l).isSome

/-- Elements `a ≤ idx < b` of `l`. -/
def slice (l : Str) (a b : Nat) : Str := (l.take b).drop a

/-- KEY group and close index of the chosen match; the KEY is `none`
(Python `None`) when the optional group is skipped, i.e. the close is at
`i+1` (an empty `""=`). Returns `none` when the pattern does not match. -/
def keyCapture (cond : Str → Nat → Bool) (l : Str) : Option (Option Str × Nat) :=
  match startPos cond l with
  | none => none
  | some i =>
    match closePos cond l i with
    | some j => some (some (slice l (i+1) j), j)
    | none => some (none, i+1)

def lastIdx (p : Nat → Bool) (n : Nat) : Option Nat :=
  ((List.range n).filter p).getLast?

/-- VAL group of pkv_m: greedy `.*` backtracks to the last `\`. -/
def valM (l : Str) (j : Nat) : Str :=
  match lastIdx (fun k => decide (j+2 ≤ k) && decide (ch l k = '\\')) l.length with
  | some k => slice l (j+2) k
  | none => []

/-- VAL group of pkv_q: greedy `.*` backtracks to the last `"`. -/
def valQ (l : Str) (j : Nat) : Str :=
  match lastIdx (fun k => decide (j+3 ≤ k) && decide (ch l k = '"')) l.length with
  | some k => slice l (j+3) k
  | none => []

/-- VAL group of pkv_b: greedy `.*` takes the rest of the line. -/
def valB (l : Str) (j : Nat) : Str := l.drop (j+2)

-- ---------------------------------------------------------------------
-- Line classification (the if/elif chain of read_registry's main loop)
-- ---------------------------------------------------------------------

/-- `line.startswith('[') and line.endswith(']')`. -/
def isHkeyLine (l : Str) : Bool :=
  decide (l.head? = some '[') && decide (l.getLast? = some ']')

/-- `line.startswith('@=')`. -/
def isAtLine (l : Str) : Bool :=
  match l with
  | '@' :: '=' :: _ => true
  | _ => false

/-- `line.split('=')` (split on every `=`). -/
def splitEqAux (acc : Str) : Str → List Str
  | [] => [acc.reverse]
  | c :: rest => if c = '=' then acc.reverse :: splitEqAux [] rest else splitEqAux (c :: acc) rest

/-- `line.split('=')[1]`: the text between the first and second `=`. -/
def atVal (l : Str) : Str := (splitEqAux [] l).getD 1 []

/-- What the main parse loop does with one (rstripped) line, in the
code's if/elif order: HKEY test, pkv_m, pkv_q, pkv_b, `@=`, blank/other. -/
inductive Eff where
  | hkeySet (hk : Str)
  | contKV (key : Option Str) (valPre : Str)
  | plainKV (key : Option Str) (val : Str)
  | atKV (val : Str)
  | skip
deriving DecidableEq

def lineEffect (l : Str) : Eff :=
  if isHkeyLine l then .hkeySet l
  else if matchM l then
    match keyCapture condM l with
    | some (k, j) => .contKV k (valM l j)
    | none => .skip
  else if matchQ l then
    match keyCapture condQ l with
    | some (k, j) => .plainKV k ('"' :: valQ l j ++ ['"'])
    | none => .skip
  else if matchB l then
    match keyCapture condB l with
    | some (k, j) => .plainKV k (valB l j)
    | none => .skip
  else if isAtLine l then .atKV (atVal l)
  else .skip

/-- The continuation-gathering inner loop: append each following
rstripped physical line, stopping after the first one that does not end
with a backslash (that terminal line included). -/
def gather : List Str → List Str
  | [] => []
  | x :: xs =>
    let x' := rstrip x
    if decide (x'.getLast? = some '\\') then x' :: gather xs else [x']

/-- The main loop of `read_registry` over the raw physical lines.
`hk?` is the "current HKEY" cursor (`none` before the first HKEY line:
indexing `registry[hkey]` then raises, modelled as `none`).  A `none`
KEY capture is Python `None`: storing it is followed by `key.lower()`
which raises AttributeError, so the whole parse is `none` as well.
Continuation lines are gathered by lookahead but, as in the code, are
NOT consumed: the loop revisits them (they then match no pattern). -/
def parseLoop : Registry → Registry → Option Str → List Str → Option (Registry × Registry)
  | reg, ci, _, [] => some (reg, ci)
  | reg, ci, hk?, line :: rest =>
    let l := rstrip line
    match lineEffect l with
    | .hkeySet h => parseLoop (alSet reg h []) (alSet ci (lower h) []) (some h) rest
    | .contKV k? vp =>
      match hk?, k? with
      | some hk, some k =>
        let v := List.intercalate ['\n'] ((vp ++ ['\\']) :: gather rest)
        match alGet reg hk, alGet ci (lower hk) with
        | some ks, some ksci =>
            parseLoop (alSet reg hk (alSet ks k v))
              (alSet ci (lower hk) (alSet ksci (lower k) v)) hk? rest
        | _, _ => none
      | _, _ => none
    | .plainKV k? v =>
      match hk?, k? with
      | some hk, some k =>
        match alGet reg hk, alGet ci (lower hk) with
        | some ks, some ksci =>
            parseLoop (alSet reg hk (alSet ks k v))
              (alSet ci (lower hk) (alSet ksci (lower k) v)) hk? rest
        | _, _ => none
      | _, _ => none
    | .atKV v =>
      match hk? with
      | some hk =>
        match alGet reg hk, alGet ci (lower hk) with
        | some ks, some ksci =>
            parseLoop (alSet reg hk (alSet ks ['@'] v))
              (alSet ci (lower hk) (alSet ksci ['@'] v)) hk? rest
        | _, _ => none
      | none => none
    | .skip => parseLoop reg ci hk? rest

/-- The preamble re-scan: concatenate each whitespace-stripped line up
to (not including) the first line starting with `[`. -/
def preambleOf : List Str → Str
  | [] => []
  | line :: rest =>
    let l := strip line
    if decide (l.head? = some '[') then [] else l ++ preambleOf rest

/-- `fh.readlines()`: split into chunks, each keeping its trailing
newline (a last chunk without one is kept too). -/
def splitLinesAux (acc : Str) : Str → List Str
  | [] => if acc.isEmpty then [] else [acc.reverse]
  | c :: rest =>
    if c = '\n' then (acc.reverse ++ ['\n']) :: splitLinesAux [] rest
    else splitLinesAux (c :: acc) rest

def splitLines (s : Str) : List Str := splitLinesAux [] s

structure ParseResult where
  reg : Registry
  regci : Registry
  preamble : Str
  res : String
deriving DecidableEq

/-- `read_registry(fn_reg)`.  The argument is the file on disk: `none`
when the path does not exist (`open` raises FileNotFoundError, which is
caught), `some content` otherwise.  The result is `none` when the
function raises an uncaught exception. -/
def read_registry : Option Str → Option ParseResult
  | none => some ⟨[], [], [], "read_registry_filenotfound"⟩
  | some content =>
    let lines := splitLines content
    match parseLoop [] [] none lines with
    | some (reg, ci) => some ⟨reg, ci, preambleOf lines, "read_registry_success"⟩
    | none => none

-- ---------------------------------------------------------------------
-- write_registry
-- ---------------------------------------------------------------------

/-- One serialized key line: `@=<val>` for the default key, else
`"<key>"=<val>`. -/
def kvline (k v : Str) : Str :=
  if k = ['@'] then '@' :: '=' :: v else '"' :: (k ++ '"' :: '=' :: v)

/-- The raw (newline-less) lines the serializer emits for the HKEY
blocks: each HKEY line, its key lines, then a blank separator line. -/
def regRaw (reg : Registry) : List Str :=
  reg.flatMap (fun b => b.1 :: (b.2.map (fun kv => kvline kv.1 kv.2) ++ [[]]))

/-- All raw lines written: preamble, a blank line, then the blocks. -/
def rawLines (pre : Str) (reg : Registry) : List Str := pre :: [] :: regRaw reg

/-- Join raw lines, terminating each with `os.linesep` (`'\n'`). -/
def joinNlTerm (ls : List Str) : Str := ls.flatMap (fun l => l ++ ['\n'])

/-- The full byte content `write_registry` writes. -/
def writeContent (pre : Str) (reg : Registry) : Str := joinNlTerm (rawLines pre reg)

/-- How `open(fn_reg, mode='w')` can behave for the destination path. -/
inductive OpenOutcome where
  | opened
  | fileNotFoundError
  | permissionError
deriving DecidableEq

/-- `write_registry(fn_reg, preamble, registry)`; the first component of
the result is the content written (`none` if nothing was written).  The
code catches only FileNotFoundError, so a PermissionError from `open`
propagates: modelled as `none` (uncaught exception). -/
def write_registry (o : OpenOutcome) (pre : Str) (reg : Registry) :
    Option (Option Str × String) :=
  match o with
  | .opened => some (some (writeContent pre reg), "write_registry_success")
  | .fileNotFoundError => some (none, "write_registry_filenotfound")
  | .permissionError => none

/-- Parse a file's bytes, then serialize the result without mutating it
(the round-trip of §8); `none` when the parse raised. -/
def roundTrip (f : Str) : Option Str :=
  (read_registry (some f)).map (fun r => writeContent r.preamble r.reg)

-- ---------------------------------------------------------------------
-- CRUD operations
-- ---------------------------------------------------------------------

/-- `add_hkey(registry, hkey)`. -/
def add_hkey (ic : Bool) (reg : Registry) (hk : Str) : Registry × String :=
  if !(pyIn ic hk (keys reg)) then (alSet reg hk [], "hkey_added")
  else (reg, "hkey_already_exists")

/-- `add_hkey_kv(registry, hkey, key, val)`.  The try/except: a KeyError
from reading `registry[hkey][key]` is caught, but `registry[hkey]`
missing inside the except handler raises again — uncaught (`none`). -/
def add_hkey_kv (ic : Bool) (reg : Registry) (hk k v : Str) :
    Option (Registry × String) :=
  let reg1 := if !(pyIn ic hk (keys reg)) then alSet reg hk [] else reg
  match alGet reg1 hk with
  | none => none
  | some ks =>
    match alGet ks k with
    | some _ => some (reg1, "hkey_kv_already_exists")
    | none => some (alSet reg1 hk (alSet ks k v), "hkey_kv_added")

/-- `chk_hkey(registry, registry_ci, hkey)`. -/
def chk_hkey (ic : Bool) (registry registry_ci : Registry) (hkey : Str) : String :=
  let needle := if ic then lower hkey else hkey
  let reg := if ic then registry_ci else registry
  if ic then
    if pyIn ic needle (keys reg) then "hkey_exists_ic" else "hkey_notexists_ic"
  else
    if pyIn ic needle (keys reg) then "hkey_exists" else "hkey_notexists"

/-- `del_hkey(registry, hkey)`: `del registry[hkey]` raises KeyError
when the exact key is absent (possible in IGNORE_CASE mode). -/
def del_hkey (ic : Bool) (reg : Registry) (hk : Str) : Option (Registry × String) :=
  if pyIn ic hk (keys reg) then
    match alGet reg hk with
    | none => none
    | some _ => some (alDel reg hk, "hkey_removed")
  else some (reg, "hkey_notremoved")

/-- `del_hkey_k(registry, hkey, key)`: both `registry[hkey]` (in the
inner `_in` test) and `del registry[hkey][key]` can raise uncaught
KeyErrors in IGNORE_CASE mode. -/
def del_hkey_k (ic : Bool) (reg : Registry) (hk k : Str) : Option (Registry × String) :=
  if pyIn ic hk (keys reg) then
    match alGet reg hk with
    | none => none
    | some ks =>
      if pyIn ic k (keys ks) then
        match alGet ks k with
        | none => none
        | some _ => some (alSet reg hk (alDel ks k), "hkey_k_removed")
      else some (reg, "hkey_k_keynotfound")
  else some (reg, "hkey_k_hkeynotfound")

/-- `del_hkey_kv(registry, hkey, key, val)`: removes only when the
stored value equals `val` exactly. -/
def del_hkey_kv (ic : Bool) (reg : Registry) (hk k v : Str) : Option (Registry × String) :=
  if pyIn ic hk (keys reg) then
    match alGet reg hk with
    | none => none
    | some ks =>
      if pyIn ic k (keys ks) then
        match alGet ks k with
        | none => none
        | some v0 =>
          if v0 = v then some (alSet reg hk (alDel ks k), "hkey_kv_removed")
          else some (reg, "hkey_kv_value_mismatch")
      else some (reg, "hkey_kv_keynotfound")
  else some (reg, "hkey_kv_hkeynotfound")

/-- `upd_hkey(registry, hkey_old, hkey_new)`:
`registry[hkey_new] = registry.pop(hkey_old)`. -/
def upd_hkey (ic : Bool) (reg : Registry) (hkOld hkNew : Str) : Option (Registry × String) :=
  if pyIn ic hkOld (keys reg) then
    if hkOld = hkNew then some (reg, "hkey_notupdated")
    else
      match alGet reg hkOld with
      | none => none
      | some ks => some (alSet (alDel reg hkOld) hkNew ks, "hkey_updated")
  else some (reg, "hkey_notfound")

/-- `upd_key(registry, hkey, key_old, key_new)`.  The inner `if` has no
`else`: when the hkey exists but `key_old` is not `_in` its keys, `res`
is never assigned and `return registry, res` raises UnboundLocalError —
modelled as `none`.  A KeyError inside the try (exact `key_old` absent
in IGNORE_CASE mode) is caught as `key_update_fail`. -/
def upd_key (ic : Bool) (reg : Registry) (hk kOld kNew : Str) : Option (Registry × String) :=
  if pyIn ic hk (keys reg) then
    match alGet reg hk with
    | none => none
    | some ks =>
      if pyIn ic kOld (keys ks) then
        if kOld = kNew then some (reg, "key_notupdated")
        else
          match alGet ks kOld with
          | none => some (reg, "key_update_fail")
          | some v => some (alSet reg hk (alSet (alDel ks kOld) kNew v), "key_updated")
      else none
  else some (reg, "key_notfound")

/-- `upd_val(registry, hkey, key, val_new)`.  `registry[hkey]` in the
inner `_in` test can raise (uncaught) in IGNORE_CASE mode; a KeyError
inside the try is caught as `val_update_fail`. -/
def upd_val (ic : Bool) (reg : Registry) (hk k vNew : Str) : Option (Registry × String) :=
  if pyIn ic hk (keys reg) then
    match alGet reg hk with
    | none => none
    | some ks =>
      if pyIn ic k (keys ks) then
        match alGet ks k with
        | none => some (reg, "val_update_fail")
        | some vOld =>
          if vOld = vNew then some (reg, "val_notupdated")
          else some (alSet reg hk (alSet ks k vNew), "val_updated")
      else some (alSet reg hk (alSet ks k vNew), "val_key_set")
  else some (reg, "hkey_notfound")

-- ---------------------------------------------------------------------
-- main()'s change-detection: `if res in res_modind: changed = True;
-- write_registry(...)`
-- ---------------------------------------------------------------------

def res_modind : List String :=
  ["write_registry_success", "hkey_added", "hkey_kv_added", "hkey_removed",
   "hkey_k_removed", "hkey_kv_removed", "hkey_updated", "key_updated",
   "val_updated", "val_key_set"]

/-- `result['changed']` after the operation returned `res`. -/
def changedFlag (res : String) : Bool := res_modind.contains res

/-- Whether main() calls `write_registry` for result code `res`. -/
def mainWrites (res : String) : Bool := res_modind.contains res

end Regedit

namespace Regedit

-- ---------------------------------------------------------------------
-- Association-list lemmas
-- ---------------------------------------------------------------------

theorem alGet_alSet_self {α : Type} (m : List (Str × α)) (k : Str) (v : α) :
    alGet (alSet m k v) k = some v := by
  induction m with
  | nil => simp [alSet, alGet]
  | cons p m ih =>
    by_cases h : p.1 = k
    · simp [alSet, alGet, h]
    · simp [alSet, alGet, h, ih]

theorem alGet_alSet_ne {α : Type} (m : List (Str × α)) (k k' : Str) (v : α)
    (h : k' ≠ k) : alGet (alSet m k v) k' = alGet m k' := by
  have hkk : ¬ k = k' := fun hh => h hh.symm
  induction m with
  | nil => simp [alSet, alGet, hkk]
  | cons p m ih =>
    by_cases hp : p.1 = k
    · have hk' : ¬ p.1 = k' := by rw [hp]; exact hkk
      simp [alSet, alGet, hp, hk', hkk]
    · by_cases hp' : p.1 = k'
      · simp [alSet, alGet, hp, hp', h]
      · simp [alSet, alGet, hp, hp', ih]

theorem alSet_fresh {α : Type} {m : List (Str × α)} {k : Str} (v : α)
    (h : alGet m k = none) : alSet m k v = m ++ [(k, v)] := by
  induction m with
  | nil => simp [alSet]
  | cons p m ih =>
    simp only [alGet] at h
    by_cases hp : p.1 = k
    · simp [hp] at h
    · simp only [if_neg hp] at h
      simp [alSet, hp, ih h]

theorem alSet_eq_self {α : Type} {m : List (Str × α)} {k : Str} {v : α}
    (h : alGet m k = some v) : alSet m k v = m := by
  induction m with
  | nil => simp [alGet] at h
  | cons p m ih =>
    obtain ⟨k0, v0⟩ := p
    simp only [alGet] at h
    by_cases hp : k0 = k
    · rw [if_pos hp] at h
      injection h with hv
      subst hv
      simp [alSet, hp]
    · rw [if_neg hp] at h
      simp [alSet, hp, ih h]

theorem alSet_alSet {α : Type} (m : List (Str × α)) (k : Str) (v w : α) :
    alSet (alSet m k v) k w = alSet m k w := by
  induction m with
  | nil => simp [alSet]
  | cons p m ih =>
    by_cases hp : p.1 = k
    · simp [alSet, hp]
    · simp [alSet, hp, ih]

theorem alGet_append {α : Type} (m m' : List (Str × α)) (k : Str) :
    alGet (m ++ m') k = ((alGet m k).rec (alGet m' k) fun v => some v) := by
  induction m with
  | nil => simp [alGet]
  | cons p m ih =>
    by_cases hp : p.1 = k
    · simp [alGet, hp]
    · simp [alGet, hp, ih]

theorem alGet_append_right {α : Type} {m : List (Str × α)} {k : Str}
    (m' : List (Str × α)) (h : alGet m k = none) :
    alGet (m ++ m') k = alGet m' k := by
  rw [alGet_append, h]

theorem alGet_append_left {α : Type} {m : List (Str × α)} {k : Str} {v : α}
    (m' : List (Str × α)) (h : alGet m k = some v) :
    alGet (m ++ m') k = some v := by
  rw [alGet_append, h]

theorem alSet_append_right {α : Type} {m : List (Str × α)} {k : Str}
    (m' : List (Str × α)) (v : α) (h : alGet m k = none) :
    alSet (m ++ m') k v = m ++ alSet m' k v := by
  induction m with
  | nil => simp
  | cons p m ih =>
    simp only [alGet] at h
    by_cases hp : p.1 = k
    · simp [hp] at h
    · simp only [if_neg hp] at h
      simp [alSet, hp, ih h]

theorem alGet_singleton_ne {α : Type} {k k' : Str} (v : α) (h : k' ≠ k) :
    alGet [(k, v)] k' = (none : Option α) := by
  have hkk : ¬ k = k' := fun hh => h hh.symm
  simp [alGet, hkk]

/-- Membership of a key in `keys m` decides `alGet`. -/
theorem pyMem_keys_isSome {α : Type} (m : List (Str × α)) (k : Str) :
    pyMem k (keys m) = (alGet m k).isSome := by
  induction m with
  | nil => simp [pyMem, keys, alGet]
  | cons p m ih =>
    by_cases hp : p.1 = k
    · simp [pyMem, keys, alGet, hp]
    · simp only [keys, List.map_cons, pyMem, alGet]
      rw [if_neg (fun hh => hp hh.symm), if_neg hp]
      exact ih

theorem pyMem_iff_mem (n : Str) (l : List Str) : pyMem n l = true ↔ n ∈ l := by
  induction l with
  | nil => simp [pyMem]
  | cons h t ih =>
    by_cases hh : n = h
    · simp [pyMem, hh]
    · simp [pyMem, hh, ih]

/-- The case-folded `_in` test cannot be false when the exact string is
present. -/
theorem pyIn_of_mem {ic : Bool} {n : Str} {l : List Str} (h : n ∈ l) :
    pyIn ic n l = true := by
  cases ic with
  | false => simpa [pyIn, pyMem_iff_mem]
  | true =>
    simp only [pyIn, if_pos]
    rw [pyMem_iff_mem]
    exact List.mem_map_of_mem lower h

theorem alGet_eq_none_of_pyIn_false {α : Type} {ic : Bool} {m : List (Str × α)}
    {k : Str} (h : pyIn ic k (keys m) = false) : alGet m k = none := by
  cases hg : alGet m k with
  | none => rfl
  | some v =>
    have hm : pyMem k (keys m) = true := by rw [pyMem_keys_isSome, hg]; rfl
    have : k ∈ keys m := (pyMem_iff_mem _ _).mp hm
    rw [pyIn_of_mem this] at h
    cases h

-- ---------------------------------------------------------------------
-- splitLines lemmas
-- ---------------------------------------------------------------------

theorem noNl_cons {c : Char} {s : Str} (h : noNl (c :: s) = true) :
    c ≠ '\n' ∧ noNl s = true := by
  simp only [noNl, Bool.and_eq_true, Bool.not_eq_true'] at h
  exact ⟨by simpa using h.1, h.2⟩

theorem splitLinesAux_chunk (l : Str) : ∀ (acc t : Str), noNl l = true →
    splitLinesAux acc (l ++ '\n' :: t) = (acc.reverse ++ l ++ ['\n']) :: splitLines t := by
  induction l with
  | nil =>
    intro acc t _
    simp [splitLinesAux, splitLines]
  | cons c l ih =>
    intro acc t h
    obtain ⟨hc, hl⟩ := noNl_cons h
    have h1 : splitLinesAux acc ((c :: l) ++ '\n' :: t)
        = splitLinesAux (c :: acc) (l ++ '\n' :: t) := by
      simp [splitLinesAux, hc]
    rw [h1, ih (c :: acc) t hl]
    simp

theorem splitLines_joinNlTerm (ls : List Str) (h : ∀ l ∈ ls, noNl l = true) :
    splitLines (joinNlTerm ls) = ls.map (fun l => l ++ ['\n']) := by
  induction ls with
  | nil => simp [joinNlTerm, splitLines, splitLinesAux]
  | cons l ls ih =>
    have h1 : noNl l = true := h l (by simp)
    have h2 : ∀ x ∈ ls, noNl x = true := fun x hx => h x (by simp [hx])
    simp only [joinNlTerm, List.flatMap_cons, List.map_cons]
    have h3 : l ++ ['\n'] ++ ls.flatMap (fun x => x ++ ['\n'])
        = l ++ '\n' :: ls.flatMap (fun x => x ++ ['\n']) := by simp
    rw [h3, show (splitLines (l ++ '\n' :: ls.flatMap fun x => x ++ ['\n']))
        = splitLinesAux [] (l ++ '\n' :: ls.flatMap fun x => x ++ ['\n']) from rfl,
      splitLinesAux_chunk l [] _ h1]
    simp only [List.reverse_nil, List.nil_append]
    rw [show (ls.flatMap fun x => x ++ ['\n']) = joinNlTerm ls from rfl, ih h2]

-- ---------------------------------------------------------------------
-- strip/rstrip lemmas
-- ---------------------------------------------------------------------

theorem rstrip_append_nl (l : Str) : rstrip (l ++ ['\n']) = rstrip l := by
  simp [rstrip, List.dropWhile, isWS]

theorem strip_append_nl (l : Str) : strip (l ++ ['\n']) = strip l := by
  simp [strip, rstrip_append_nl]

theorem rstrip_nl_singleton : rstrip ['\n'] = [] := by
  simp [rstrip, List.dropWhile, isWS]

-- ---------------------------------------------------------------------
-- parseLoop step lemmas
-- ---------------------------------------------------------------------

theorem parseLoop_cons_skip {reg ci : Registry} {hk? : Option Str}
    {line : Str} {rest : List Str} (h : lineEffect (rstrip line) = .skip) :
    parseLoop reg ci hk? (line :: rest) = parseLoop reg ci hk? rest := by
  simp [parseLoop, h]

theorem parseLoop_cons_hkey {reg ci : Registry} {hk? : Option Str}
    {line h : Str} {rest : List Str} (hh : lineEffect (rstrip line) = .hkeySet h) :
    parseLoop reg ci hk? (line :: rest)
      = parseLoop (alSet reg h []) (alSet ci (lower h) []) (some h) rest := by
  simp [parseLoop, hh]

theorem parseLoop_cons_plain {reg ci : Registry} {hk k v : Str}
    {ks ksci : KeySet} {line : Str} {rest : List Str}
    (he : lineEffect (rstrip line) = .plainKV (some k) v)
    (h1 : alGet reg hk = some ks) (h2 : alGet ci (lower hk) = some ksci) :
    parseLoop reg ci (some hk) (line :: rest)
      = parseLoop (alSet reg hk (alSet ks k v))
          (alSet ci (lower hk) (alSet ksci (lower k) v)) (some hk) rest := by
  simp [parseLoop, he, h1, h2]

theorem parseLoop_cons_at {reg ci : Registry} {hk v : Str}
    {ks ksci : KeySet} {line : Str} {rest : List Str}
    (he : lineEffect (rstrip line) = .atKV v)
    (h1 : alGet reg hk = some ks) (h2 : alGet ci (lower hk) = some ksci) :
    parseLoop reg ci (some hk) (line :: rest)
      = parseLoop (alSet reg hk (alSet ks ['@'] v))
          (alSet ci (lower hk) (alSet ksci ['@'] v)) (some hk) rest := by
  simp [parseLoop, he, h1, h2]

theorem parseLoop_none_plain {reg ci : Registry} {k? : Option Str} {v : Str}
    {line : Str} {rest : List Str} (he : lineEffect (rstrip line) = .plainKV k? v) :
    parseLoop reg ci none (line :: rest) = none := by
  simp [parseLoop, he]

theorem parseLoop_none_at {reg ci : Registry} {v : Str}
    {line : Str} {rest : List Str} (he : lineEffect (rstrip line) = .atKV v) :
    parseLoop reg ci none (line :: rest) = none := by
  simp [parseLoop, he]

theorem parseLoop_none_cont {reg ci : Registry} {k? : Option Str} {v : Str}
    {line : Str} {rest : List Str} (he : lineEffect (rstrip line) = .contKV k? v) :
    parseLoop reg ci none (line :: rest) = none := by
  cases k? <;> simp [parseLoop, he]

theorem parseLoop_nokey_plain {reg ci : Registry} {hk? : Option Str} {v : Str}
    {line : Str} {rest : List Str}
    (he : lineEffect (rstrip line) = .plainKV none v) :
    parseLoop reg ci hk? (line :: rest) = none := by
  cases hk? <;> simp [parseLoop, he]

theorem parseLoop_nokey_cont {reg ci : Registry} {hk? : Option Str} {v : Str}
    {line : Str} {rest : List Str}
    (he : lineEffect (rstrip line) = .contKV none v) :
    parseLoop reg ci hk? (line :: rest) = none := by
  cases hk? <;> simp [parseLoop, he]

end Regedit

namespace Regedit

-- ---------------------------------------------------------------------
-- Round-trip of the serializer's canonical form
-- ---------------------------------------------------------------------

theorem alGet_append_last {α : Type} {m : List (Str × α)} {k : Str} (x : α)
    (h : alGet m k = none) : alGet (m ++ [(k, x)]) k = some x := by
  rw [alGet_append_right _ h]
  simp [alGet]

theorem alSet_append_last {α : Type} {m : List (Str × α)} {k : Str} (x y : α)
    (h : alGet m k = none) : alSet (m ++ [(k, x)]) k y = m ++ [(k, y)] := by
  rw [alSet_append_right _ y h]
  simp [alSet]

theorem alGet_append_singleton_ne {α : Type} {m : List (Str × α)} {k k' : Str}
    (v : α) (h : alGet m k' = none) (hne : k' ≠ k) :
    alGet (m ++ [(k, v)]) k' = none := by
  rw [alGet_append_right _ h]
  exact alGet_singleton_ne v hne

/-- While parsing, every HKEY present in the primary registry has its
lower-cased twin present in the case-folded registry. -/
def Inv (reg ci : Registry) : Prop :=
  ∀ h : Str, (alGet reg h).isSome = true → (alGet ci (lower h)).isSome = true

theorem Inv_nil : Inv [] [] := by
  intro h hh
  simp [alGet] at hh

theorem Inv_update {reg ci : Registry} (hk : Str) (x y : KeySet)
    (hInv : Inv reg ci) : Inv (alSet reg hk x) (alSet ci (lower hk) y) := by
  intro h hh
  by_cases heq : h = hk
  · subst heq
    rw [alGet_alSet_self]
    rfl
  · rw [alGet_alSet_ne reg hk h x heq] at hh
    by_cases hle : lower h = lower hk
    · rw [hle, alGet_alSet_self]
      rfl
    · rw [alGet_alSet_ne ci (lower hk) (lower h) y hle]
      exact hInv h hh

theorem noNl_append (a b : Str) : noNl (a ++ b) = (noNl a && noNl b) := by
  induction a with
  | nil => simp [noNl]
  | cons c a ih => simp [noNl, ih, Bool.and_assoc]

theorem noNl_kvline {k v : Str} (hk : noNl k = true) (hv : noNl v = true) :
    noNl (kvline k v) = true := by
  by_cases h : k = ['@'] <;>
    simp [kvline, h, noNl, noNl_append, hk, hv]

theorem lineEffect_hkeyLine {l : Str} (h : isHkeyLine l = true) :
    lineEffect l = .hkeySet l := by
  simp [lineEffect, h]

theorem head_of_isHkeyLine {l : Str} (h : isHkeyLine l = true) :
    l.head? = some '[' := by
  simp only [isHkeyLine, Bool.and_eq_true, decide_eq_true_eq] at h
  exact h.1

/-- A key line of the serializer's canonical form: its physical line is
rstrip-invariant and is classified back to exactly the same key/value
(`plainKV` for a named key, `atKV` for the default key `@`). -/
def GoodKVP (k v : Str) : Prop :=
  noNl k = true ∧ noNl v = true ∧ rstrip (kvline k v) = kvline k v ∧
  ((k ≠ ['@'] ∧ lineEffect (kvline k v) = .plainKV (some k) v) ∨
   (k = ['@'] ∧ lineEffect (kvline k v) = .atKV v))

/-- An HKEY block of the canonical form. -/
def GoodBlock (hk : Str) (ks : KeySet) : Prop :=
  isHkeyLine hk = true ∧ noNl hk = true ∧ rstrip hk = hk ∧ strip hk = hk ∧
  (keys ks).Nodup ∧ ∀ kv ∈ ks, GoodKVP kv.1 kv.2

/-- A file of the serializer's canonical form: a single inert preamble
line (no embedded newlines, no surrounding whitespace, matching no
parse pattern, not starting with `[`), then HKEY blocks with pairwise
distinct HKEY lines whose key lines re-parse to themselves. -/
def GoodFile (pre : Str) (reg : Registry) : Prop :=
  (noNl pre = true ∧ rstrip pre = pre ∧ strip pre = pre ∧
   lineEffect pre = .skip ∧ ¬ (pre.head? = some '[')) ∧
  (keys reg).Nodup ∧ ∀ b ∈ reg, GoodBlock b.1 b.2

instance (k v : Str) : Decidable (GoodKVP k v) := by
  unfold GoodKVP
  infer_instance

instance (hk : Str) (ks : KeySet) : Decidable (GoodBlock hk ks) := by
  unfold GoodBlock
  infer_instance

instance (pre : Str) (reg : Registry) : Decidable (GoodFile pre reg) := by
  unfold GoodFile
  infer_instance

theorem noNl_rawLines {pre : Str} {reg : Registry}
    (hpre : noNl pre = true) (h : ∀ b ∈ reg, GoodBlock b.1 b.2) :
    ∀ l ∈ rawLines pre reg, noNl l = true := by
  intro l hl
  simp only [rawLines, List.mem_cons] at hl
  rcases hl with rfl | hl
  · exact hpre
  rcases hl with rfl | hl
  · rfl
  simp only [regRaw, List.mem_flatMap] at hl
  obtain ⟨b, hb, hlb⟩ := hl
  obtain ⟨_, hhn, _, _, _, hksg⟩ := h b hb
  rcases List.mem_cons.mp hlb with rfl | hlb
  · exact hhn
  rcases List.mem_append.mp hlb with hm | hm
  · obtain ⟨kv, hkv, rfl⟩ := List.mem_map.mp hm
    obtain ⟨hkn, hvn, _, _⟩ := hksg kv hkv
    exact noNl_kvline hkn hvn
  · have : l = [] := by simpa using hm
    subst this
    rfl

/-- Parsing the key lines of one block accumulates exactly those pairs
into the current HKEY's keyset. -/
theorem parseLoop_kvs (ks : KeySet) :
    ∀ (reg ci : Registry) (hk : Str) (ks0 : KeySet) (rest : List Str),
    Inv reg ci →
    alGet reg hk = some ks0 →
    (∀ kv ∈ ks, GoodKVP kv.1 kv.2) →
    (keys ks).Nodup →
    (∀ kv ∈ ks, alGet ks0 kv.1 = none) →
    ∃ ci', parseLoop reg ci (some hk)
        ((ks.map fun kv => kvline kv.1 kv.2 ++ ['\n']) ++ rest)
      = parseLoop (alSet reg hk (ks0 ++ ks)) ci' (some hk) rest
      ∧ Inv (alSet reg hk (ks0 ++ ks)) ci' := by
  induction ks with
  | nil =>
    intro reg ci hk ks0 rest hInv hget _ _ _
    refine ⟨ci, ?_, ?_⟩
    · rw [List.append_nil, alSet_eq_self hget]
      simp
    · rw [List.append_nil, alSet_eq_self hget]
      exact hInv
  | cons kv ks ih =>
    intro reg ci hk ks0 rest hInv hget hGood hNodup hFresh
    obtain ⟨k, v⟩ := kv
    obtain ⟨hkn, hvn, hrs, heff⟩ := hGood (k, v) (by simp)
    have hciS : (alGet ci (lower hk)).isSome = true := hInv hk (by rw [hget]; rfl)
    obtain ⟨ksci, hksci⟩ : ∃ x, alGet ci (lower hk) = some x := by
      cases hcc : alGet ci (lower hk) with
      | none => rw [hcc] at hciS; cases hciS
      | some x => exact ⟨x, rfl⟩
    have hfr : alGet ks0 k = none := hFresh (k, v) (by simp)
    have hstep : rstrip (kvline k v ++ ['\n']) = kvline k v := by
      rw [rstrip_append_nl, hrs]
    have hknotin : k ∉ keys ks := by
      have := hNodup
      simp only [keys, List.map_cons, List.nodup_cons] at this
      exact this.1
    -- one parse step, identical for named keys and the default key `@`
    have hone : parseLoop reg ci (some hk) ((kvline k v ++ ['\n']) :: ((ks.map fun kv => kvline kv.1 kv.2 ++ ['\n']) ++ rest))
        = parseLoop (alSet reg hk (alSet ks0 k v))
            (alSet ci (lower hk) (alSet ksci (lower k) v)) (some hk)
            ((ks.map fun kv => kvline kv.1 kv.2 ++ ['\n']) ++ rest) := by
      rcases heff with ⟨_, he⟩ | ⟨hkat, he⟩
      · exact parseLoop_cons_plain (by rw [hstep]; exact he) hget hksci
      · subst hkat
        have hlow : lower ['@'] = ['@'] := by decide
        rw [hlow]
        exact parseLoop_cons_at (by rw [hstep]; exact he) hget hksci
    have hset : alSet ks0 k v = ks0 ++ [(k, v)] := alSet_fresh v hfr
    have hget1 : alGet (alSet reg hk (alSet ks0 k v)) hk = some (ks0 ++ [(k, v)]) := by
      rw [alGet_alSet_self, hset]
    obtain ⟨ci', hpar, hInv'⟩ := ih (alSet reg hk (alSet ks0 k v))
      (alSet ci (lower hk) (alSet ksci (lower k) v)) hk (ks0 ++ [(k, v)]) rest
      (Inv_update hk _ _ hInv) hget1
      (fun kv hkv => hGood kv (by simp [hkv]))
      (by simpa [keys] using hNodup.of_cons)
      (by
        intro kv hkv
        have hne : kv.1 ≠ k := by
          intro hh
          exact hknotin (hh ▸ (List.mem_map.mpr ⟨kv, hkv, rfl⟩))
        exact alGet_append_singleton_ne v (hFresh kv (by simp [hkv])) hne)
    refine ⟨ci', ?_, ?_⟩
    · rw [List.map_cons, List.cons_append, hone, hpar, alSet_alSet]
      simp
    · rw [alSet_alSet] at hInv'
      simpa using hInv'

/-- Parsing the serialized blocks appends them, in order, to the
registry accumulated so far. -/
theorem parseLoop_blocks (reg : Registry) :
    ∀ (reg0 ci0 : Registry) (hk? : Option Str),
    Inv reg0 ci0 →
    (∀ b ∈ reg, GoodBlock b.1 b.2) →
    (keys reg).Nodup →
    (∀ b ∈ reg, alGet reg0 b.1 = none) →
    ∃ ci', parseLoop reg0 ci0 hk? ((regRaw reg).map fun l => l ++ ['\n'])
        = some (reg0 ++ reg, ci') := by
  induction reg with
  | nil =>
    intro reg0 ci0 hk? _ _ _ _
    exact ⟨ci0, by simp [regRaw, parseLoop]⟩
  | cons b reg ih =>
    intro reg0 ci0 hk? hInv hGood hNodup hFresh
    obtain ⟨hk, ks⟩ := b
    obtain ⟨hhl, hhn, hhr, hhs, hksn, hksg⟩ := hGood (hk, ks) (by simp)
    have hfr0 : alGet reg0 hk = none := hFresh (hk, ks) (by simp)
    have hknotin : hk ∉ keys reg := by
      have := hNodup
      simp only [keys, List.map_cons, List.nodup_cons] at this
      exact this.1
    -- decompose the line list
    have hlines : (regRaw ((hk, ks) :: reg)).map (fun l => l ++ ['\n'])
        = (hk ++ ['\n']) :: ((ks.map fun kv => kvline kv.1 kv.2 ++ ['\n'])
            ++ (['\n'] :: (regRaw reg).map fun l => l ++ ['\n'])) := by
      simp [regRaw, List.map_map, Function.comp]
    rw [hlines]
    -- step 1: the HKEY line
    rw [parseLoop_cons_hkey (by rw [rstrip_append_nl, hhr]; exact lineEffect_hkeyLine hhl)]
    rw [alSet_fresh [] hfr0]
    -- step 2: the key lines
    obtain ⟨ci1, hpar1, hInv1⟩ := parseLoop_kvs ks (reg0 ++ [(hk, [])])
      (alSet ci0 (lower hk) []) hk [] (['\n'] :: (regRaw reg).map fun l => l ++ ['\n'])
      (by
        have := Inv_update hk ([] : KeySet) ([] : KeySet) hInv
        rwa [alSet_fresh [] hfr0] at this)
      (alGet_append_last [] hfr0) hksg hksn (fun kv _ => rfl)
    rw [hpar1]
    rw [show ([] : KeySet) ++ ks = ks from rfl, alSet_append_last [] ks hfr0] at *
    -- step 3: the blank separator line
    rw [parseLoop_cons_skip (by rw [show (['\n'] : Str) = [] ++ ['\n'] from rfl, rstrip_append_nl]; decide)]
    -- step 4: the remaining blocks
    obtain ⟨ci', hpar'⟩ := ih (reg0 ++ [(hk, ks)]) ci1 (some hk) hInv1
      (fun b hb => hGood b (by simp [hb]))
      (by simpa [keys] using hNodup.of_cons)
      (by
        intro b hb
        have hne : b.1 ≠ hk := by
          intro hh
          exact hknotin (hh ▸ (List.mem_map.mpr ⟨b, hb, rfl⟩))
        exact alGet_append_singleton_ne ks (hFresh b (by simp [hb])) hne)
    rw [hpar']
    simp

/-- The preamble re-scan over the canonical line list returns the
preamble line. -/
theorem preambleOf_rawLines (pre : Str) (reg : Registry)
    (hps : strip pre = pre) (hph : ¬ (pre.head? = some '['))
    (hreg : ∀ b ∈ reg, isHkeyLine b.1 = true ∧ strip b.1 = b.1) :
    preambleOf ((rawLines pre reg).map fun l => l ++ ['\n']) = pre := by
  have hblank : preambleOf (((regRaw reg).map fun l => l ++ ['\n'])) = [] := by
    cases reg with
    | nil => simp [regRaw, preambleOf]
    | cons b reg =>
      obtain ⟨hk, ks⟩ := b
      obtain ⟨hhl, hhs⟩ := hreg (hk, ks) (by simp)
      have h1 : strip (hk ++ ['\n']) = hk := by rw [strip_append_nl, hhs]
      simp only [regRaw, List.flatMap_cons, List.map_cons, List.cons_append,
        List.map_append, preambleOf]
      rw [h1, if_pos (by rw [decide_eq_true_eq]; exact head_of_isHkeyLine hhl)]
  have h2 : strip (([] : Str) ++ ['\n']) = [] := by decide
  simp only [rawLines, List.map_cons, preambleOf]
  rw [strip_append_nl, hps, if_neg (by rw [decide_eq_true_eq]; exact hph), h2]
  rw [if_neg (by rw [decide_eq_true_eq]; simp)]
  rw [hblank]
  simp

/-- Parsing the bytes `write_registry` emits for a canonical
`(preamble, registry)` pair recovers exactly that pair. -/
theorem read_registry_writeContent (pre : Str) (reg : Registry)
    (h : GoodFile pre reg) :
    ∃ ci', read_registry (some (writeContent pre reg))
      = some ⟨reg, ci', pre, "read_registry_success"⟩ := by
  obtain ⟨⟨hpn, hpr, hps, hpe, hph⟩, hnd, hblocks⟩ := h
  have hsplit : splitLines (writeContent pre reg)
      = (rawLines pre reg).map (fun l => l ++ ['\n']) :=
    splitLines_joinNlTerm _ (noNl_rawLines hpn hblocks)
  obtain ⟨ci', hpl⟩ := parseLoop_blocks reg [] [] none Inv_nil hblocks hnd
    (fun b _ => rfl)
  have hparse : parseLoop [] [] none ((rawLines pre reg).map fun l => l ++ ['\n'])
      = some (reg, ci') := by
    simp only [rawLines, List.map_cons]
    rw [parseLoop_cons_skip (by rw [rstrip_append_nl, hpr]; exact hpe)]
    rw [parseLoop_cons_skip (by rw [show (([] : Str) ++ ['\n']) = [] ++ ['\n'] from rfl, rstrip_append_nl]; decide)]
    simpa using hpl
  have hpre : preambleOf ((rawLines pre reg).map fun l => l ++ ['\n']) = pre :=
    preambleOf_rawLines pre reg hps hph
      (fun b hb => ⟨(hblocks b hb).1, (hblocks b hb).2.2.2.1⟩)
  refine ⟨ci', ?_⟩
  simp only [read_registry]
  rw [hsplit, hparse, hpre]

end Regedit

namespace Regedit

-- ---------------------------------------------------------------------
-- Claim theorems
-- ---------------------------------------------------------------------

/-- Claim C1: the spec says a line begins a multi-line continuation value
only when it ends with a trailing backslash after the equals sign, and
that a quoted value such as `"Path"="C:\dir\file"` containing backslashes
is classified as quoted.  The code's `pkv_m.search` is unanchored, so that
very line — which ends in `"`, not `\`, and which the quoted pattern also
matches — is classified as beginning a continuation (with VAL cut at the
last interior backslash), evaluating the classifier at the failing input. -/
theorem C1_continuation_misclassifies_backslash_quoted_value :
    lineEffect "\"Path\"=\"C:\\dir\\file\"".data
      = .contKV (some "Path".data) "\"C:\\dir".data
    ∧ ¬ ("\"Path\"=\"C:\\dir\\file\"".data.getLast? = some '\\')
    ∧ matchQ "\"Path\"=\"C:\\dir\\file\"".data = true := by
  decide

/-- Claim C2 (counterexample): a well-formed file whose preamble spans two
physical lines (and contains no duplicate HKEYs) does not round-trip:
parsing then serializing merges the preamble lines. -/
theorem C2_counterexample_multiline_preamble :
    roundTrip "P\nQ\n\n[X]\n\"K\"=\"V\"\n\n".data
      ≠ some "P\nQ\n\n[X]\n\"K\"=\"V\"\n\n".data := by
  decide

/-- Claim C2 (amended): parsing then serializing without mutation is
byte-identical for files in the serializer's canonical form (`GoodFile`):
a single inert preamble line, one blank line after it and after each HKEY
block, pairwise distinct HKEY lines, and key lines that re-classify to
exactly their own key and value. -/
theorem C2_roundtrip_canonical (pre : Str) (reg : Registry)
    (h : GoodFile pre reg) :
    roundTrip (writeContent pre reg) = some (writeContent pre reg) := by
  obtain ⟨ci', hr⟩ := read_registry_writeContent pre reg h
  simp [roundTrip, hr]

theorem C2_roundtrip_canonical_witness :
    GoodFile "Windows Registry Editor Version 5.00".data
      [("[HKEY_LOCAL_MACHINE\\SOFTWARE\\M]".data,
        [("K".data, "\"V\"".data), ("D".data, "dword:00000001".data),
         ("@".data, "\"dflt\"".data)]),
       ("[X]".data, [])]
    ∧ roundTrip (writeContent "Windows Registry Editor Version 5.00".data
        [("[HKEY_LOCAL_MACHINE\\SOFTWARE\\M]".data,
          [("K".data, "\"V\"".data), ("D".data, "dword:00000001".data),
           ("@".data, "\"dflt\"".data)]),
         ("[X]".data, [])])
      = some (writeContent "Windows Registry Editor Version 5.00".data
        [("[HKEY_LOCAL_MACHINE\\SOFTWARE\\M]".data,
          [("K".data, "\"V\"".data), ("D".data, "dword:00000001".data),
           ("@".data, "\"dflt\"".data)]),
         ("[X]".data, [])]) :=
  ⟨by decide, C2_roundtrip_canonical _ _ (by decide)⟩

/-- Claim C3: the spec says Rename key always returns one of `Updated`,
`NotUpdated`, `NotFound` — in particular a result code when the hkey
exists but the old key does not; `func_rescode` documents `key_notfound`
as "The key under HKEY was NOT found".  In the code the inner `if` of
`upd_key` has no `else`, so in exactly that situation `res` is never
assigned and the return raises UnboundLocalError (`none`); the
`key_notfound` code is returned when the *hkey* is missing instead. -/
theorem C3_upd_key_unbound_result :
    upd_key false [("[X]".data, [])] "[X]".data "K".data "L".data = none
    ∧ upd_key false [("[X]".data, [])] "[Y]".data "K".data "L".data
        = some ([("[X]".data, [])], "key_notfound") := by
  decide

/-- Claim C4 (counterexample): the spec says parsing never fails except
for a missing file, even with key-value lines before the first HKEY; but
on such content `registry[hkey]` is evaluated with the `hkey` local still
unbound, raising an uncaught error: the parse produces no result. -/
theorem C4_counterexample_kv_before_hkey :
    read_registry (some "\"K\"=\"V\"\n[X]\n".data) = none := by
  decide

/-- Claim C4 (amended): a missing path yields the `FileNotFound` status;
lines matching no pattern are silently dropped (they leave the parse
state untouched); but parsing is not otherwise total: any key-value,
continuation, or default-value line encountered before the first HKEY
line raises an uncaught error instead of returning a status, and a
key-value or continuation line whose quoted key is empty (`""=...`, a
Python `None` KEY capture hitting `key.lower()`) raises an uncaught
error even when a current HKEY exists — e.g. on `[X]` then `""=x`. -/
theorem C4_parse_failure_modes :
    read_registry none = some ⟨[], [], [], "read_registry_filenotfound"⟩
    ∧ (∀ (reg ci : Registry) (hk? : Option Str) (line : Str) (rest : List Str),
        lineEffect (rstrip line) = .skip →
        parseLoop reg ci hk? (line :: rest) = parseLoop reg ci hk? rest)
    ∧ (∀ (reg ci : Registry) (line : Str) (rest : List Str) (k? : Option Str) (v : Str),
        lineEffect (rstrip line) = .plainKV k? v →
        parseLoop reg ci none (line :: rest) = none)
    ∧ (∀ (reg ci : Registry) (line : Str) (rest : List Str) (v : Str),
        lineEffect (rstrip line) = .atKV v →
        parseLoop reg ci none (line :: rest) = none)
    ∧ (∀ (reg ci : Registry) (line : Str) (rest : List Str) (k? : Option Str) (v : Str),
        lineEffect (rstrip line) = .contKV k? v →
        parseLoop reg ci none (line :: rest) = none)
    ∧ (∀ (reg ci : Registry) (hk? : Option Str) (line : Str) (rest : List Str) (v : Str),
        lineEffect (rstrip line) = .plainKV none v →
        parseLoop reg ci hk? (line :: rest) = none)
    ∧ (∀ (reg ci : Registry) (hk? : Option Str) (line : Str) (rest : List Str) (v : Str),
        lineEffect (rstrip line) = .contKV none v →
        parseLoop reg ci hk? (line :: rest) = none)
    ∧ read_registry (some "[X]\n\"\"=x\n".data) = none := by
  refine ⟨rfl, ?_, ?_, ?_, ?_, ?_, ?_, by decide⟩
  · intro reg ci hk? line rest h
    exact parseLoop_cons_skip h
  · intro reg ci line rest k? v h
    exact parseLoop_none_plain h
  · intro reg ci line rest v h
    exact parseLoop_none_at h
  · intro reg ci line rest k? v h
    exact parseLoop_none_cont h
  · intro reg ci hk? line rest v h
    exact parseLoop_nokey_plain h
  · intro reg ci hk? line rest v h
    exact parseLoop_nokey_cont h

theorem C4_parse_failure_modes_witness :
    lineEffect (rstrip "\"K\"=\"V\"".data) = .plainKV (some "K".data) "\"V\"".data
    ∧ parseLoop [] [] none ["\"K\"=\"V\"".data] = none
    ∧ lineEffect (rstrip "\"\"=x".data) = .plainKV none "x".data
    ∧ parseLoop [("[X]".data, [])] [("[x]".data, [])] (some "[X]".data)
        ["\"\"=x".data] = none :=
  ⟨by decide,
   C4_parse_failure_modes.2.2.1 [] [] "\"K\"=\"V\"".data []
     (some "K".data) "\"V\"".data (by decide),
   by decide,
   C4_parse_failure_modes.2.2.2.2.2.1 [("[X]".data, [])] [("[x]".data, [])]
     (some "[X]".data) "\"\"=x".data [] "x".data (by decide)⟩

/-- Claim C5: the spec says an unwritable destination yields a
`FileNotWritable` status, and `func_rescode` even documents the code
`write_registry_file_not_writable`; but `write_registry` catches only
FileNotFoundError, so a PermissionError from `open` propagates as an
uncaught exception (`none`), and no outcome of `write_registry` ever
carries the documented not-writable code. -/
theorem C5_write_registry_unwritable_uncaught :
    write_registry .permissionError [] [] = none
    ∧ (∀ (o : OpenOutcome) (pre : Str) (reg : Registry) (r : Option Str × String),
        write_registry o pre reg = some r →
        r.2 ≠ "write_registry_file_not_writable") := by
  refine ⟨rfl, ?_⟩
  intro o pre reg r h
  cases o with
  | opened =>
    simp only [write_registry] at h
    injection h with h
    subst h
    show ("write_registry_success" : String) ≠ "write_registry_file_not_writable"
    decide
  | fileNotFoundError =>
    simp only [write_registry] at h
    injection h with h
    subst h
    decide
  | permissionError =>
    simp [write_registry] at h

theorem C5_write_registry_unwritable_uncaught_witness :
    write_registry .fileNotFoundError [] []
      = some (none, "write_registry_filenotfound")
    ∧ ("write_registry_filenotfound" : String)
        ≠ "write_registry_file_not_writable" :=
  ⟨rfl, C5_write_registry_unwritable_uncaught.2 .fileNotFoundError [] []
    (none, "write_registry_filenotfound") rfl⟩

end Regedit

namespace Regedit

theorem pyIn_of_alGet_some {ic : Bool} {α : Type} {m : List (Str × α)}
    {k : Str} {x : α} (h : alGet m k = some x) : pyIn ic k (keys m) = true := by
  apply pyIn_of_mem
  have hm : pyMem k (keys m) = true := by rw [pyMem_keys_isSome, h]; rfl
  exact (pyMem_iff_mem _ _).mp hm

/-- Claim C6: in default (case-sensitive) mode, Add key+value creates the
HKEY when absent and returns `hkey_kv_added`; when the key already exists
it returns `hkey_kv_already_exists` and leaves the registry — including
the stored value — untouched even if the requested `val` differs; and a
second identical Add after a successful one yields `already_exists` with
the model unchanged. -/
theorem C6_add_hkey_kv_spec :
    (∀ (reg : Registry) (hk k v : Str), alGet reg hk = none →
      add_hkey_kv false reg hk k v
        = some (reg ++ [(hk, [(k, v)])], "hkey_kv_added"))
    ∧ (∀ (reg : Registry) (hk k v : Str) (ks : KeySet), alGet reg hk = some ks →
        alGet ks k = none →
        add_hkey_kv false reg hk k v
          = some (alSet reg hk (alSet ks k v), "hkey_kv_added"))
    ∧ (∀ (reg : Registry) (hk k v : Str) (ks : KeySet) (v0 : Str),
        alGet reg hk = some ks → alGet ks k = some v0 →
        add_hkey_kv false reg hk k v = some (reg, "hkey_kv_already_exists"))
    ∧ (∀ (reg reg' : Registry) (hk k v : Str),
        add_hkey_kv false reg hk k v = some (reg', "hkey_kv_added") →
        add_hkey_kv false reg' hk k v = some (reg', "hkey_kv_already_exists")) := by
  have h1p : ∀ (reg : Registry) (hk k v : Str), alGet reg hk = none →
      add_hkey_kv false reg hk k v
        = some (reg ++ [(hk, [(k, v)])], "hkey_kv_added") := by
    intro reg hk k v h
    have hmem : pyIn false hk (keys reg) = false := by
      simp [pyIn, pyMem_keys_isSome, h]
    simp [add_hkey_kv, hmem, alSet_fresh ([] : KeySet) h,
      alGet_append_last ([] : KeySet) h, alGet,
      alSet_append_last ([] : KeySet) [(k, v)] h, alSet]
  have h2p : ∀ (reg : Registry) (hk k v : Str) (ks : KeySet),
      alGet reg hk = some ks → alGet ks k = none →
      add_hkey_kv false reg hk k v
        = some (alSet reg hk (alSet ks k v), "hkey_kv_added") := by
    intro reg hk k v ks hget hgk
    have hmem : pyIn false hk (keys reg) = true := pyIn_of_alGet_some hget
    simp [add_hkey_kv, hmem, hget, hgk]
  have h3p : ∀ (reg : Registry) (hk k v : Str) (ks : KeySet) (v0 : Str),
      alGet reg hk = some ks → alGet ks k = some v0 →
      add_hkey_kv false reg hk k v = some (reg, "hkey_kv_already_exists") := by
    intro reg hk k v ks v0 hget hgk
    have hmem : pyIn false hk (keys reg) = true := pyIn_of_alGet_some hget
    simp [add_hkey_kv, hmem, hget, hgk]
  refine ⟨h1p, h2p, h3p, ?_⟩
  intro reg reg' hk k v h
  cases hpy : pyIn false hk (keys reg) with
  | true =>
    have hps : (alGet reg hk).isSome = true := by
      rw [← pyMem_keys_isSome]
      exact hpy
    obtain ⟨ks, hks⟩ := Option.isSome_iff_exists.mp hps
    cases hgk : alGet ks k with
    | some v0 =>
      rw [h3p reg hk k v ks v0 hks hgk] at h
      injection h with h
      injection h with hr1 hr2
      exact absurd hr2 (by decide)
    | none =>
      rw [h2p reg hk k v ks hks hgk] at h
      injection h with h
      injection h with hr1 hr2
      subst hr1
      exact h3p _ hk k v _ v (alGet_alSet_self reg hk (alSet ks k v))
        (alGet_alSet_self ks k v)
  | false =>
    have hget : alGet reg hk = none := alGet_eq_none_of_pyIn_false hpy
    rw [h1p reg hk k v hget] at h
    injection h with h
    injection h with hr1 hr2
    subst hr1
    exact h3p _ hk k v [(k, v)] v (alGet_append_last _ hget) (by simp [alGet])

theorem C6_add_hkey_kv_spec_witness :
    alGet ([] : Registry) "[X]".data = none
    ∧ add_hkey_kv false [] "[X]".data "K".data "v".data
        = some ([("[X]".data, [("K".data, "v".data)])], "hkey_kv_added")
    ∧ add_hkey_kv false [("[X]".data, [("K".data, "v".data)])]
        "[X]".data "K".data "v".data
        = some ([("[X]".data, [("K".data, "v".data)])], "hkey_kv_already_exists") :=
  ⟨rfl,
   C6_add_hkey_kv_spec.1 [] "[X]".data "K".data "v".data rfl,
   C6_add_hkey_kv_spec.2.2.2 [] [("[X]".data, [("K".data, "v".data)])]
     "[X]".data "K".data "v".data
     (C6_add_hkey_kv_spec.1 [] "[X]".data "K".data "v".data rfl)⟩

end Regedit

namespace Regedit

theorem add_hkey_unchanged (ic : Bool) (reg : Registry) (hk : Str)
    (reg' : Registry) (res : String) (h : add_hkey ic reg hk = (reg', res))
    (hch : changedFlag res = false) : reg' = reg := by
  simp only [add_hkey] at h
  split at h
  all_goals
    injection h with h1 h2
  · subst h2
    exact absurd hch (by decide)
  · exact h1.symm

theorem add_hkey_kv_unchanged (ic : Bool) (reg : Registry) (hk k v : Str)
    (reg' : Registry) (res : String)
    (h : add_hkey_kv ic reg hk k v = some (reg', res))
    (hch : changedFlag res = false) : reg' = reg := by
  cases hpy : pyIn ic hk (keys reg) with
  | true =>
    cases hgr : alGet reg hk with
    | none =>
      have hval : add_hkey_kv ic reg hk k v = none := by
        simp [add_hkey_kv, hpy, hgr]
      rw [hval] at h
      exact Option.noConfusion h
    | some ks =>
      cases hgk : alGet ks k with
      | some v0 =>
        have hval : add_hkey_kv ic reg hk k v
            = some (reg, "hkey_kv_already_exists") := by
          simp [add_hkey_kv, hpy, hgr, hgk]
        rw [hval] at h
        injection h with h
        injection h with h1 h2
        exact h1.symm
      | none =>
        have hval : add_hkey_kv ic reg hk k v
            = some (alSet reg hk (alSet ks k v), "hkey_kv_added") := by
          simp [add_hkey_kv, hpy, hgr, hgk]
        rw [hval] at h
        injection h with h
        injection h with h1 h2
        subst h2
        exact absurd hch (by decide)
  | false =>
    have hget : alGet reg hk = none := alGet_eq_none_of_pyIn_false hpy
    have hval : add_hkey_kv ic reg hk k v
        = some (reg ++ [(hk, [(k, v)])], "hkey_kv_added") := by
      simp [add_hkey_kv, hpy, alSet_fresh ([] : KeySet) hget,
        alGet_append_last ([] : KeySet) hget, alGet, alSet,
        alSet_append_last ([] : KeySet) [(k, v)] hget]
    rw [hval] at h
    injection h with h
    injection h with h1 h2
    subst h2
    exact absurd hch (by decide)

theorem del_hkey_unchanged (ic : Bool) (reg : Registry) (hk : Str)
    (reg' : Registry) (res : String) (h : del_hkey ic reg hk = some (reg', res))
    (hch : changedFlag res = false) : reg' = reg := by
  simp only [del_hkey] at h
  repeat' split at h
  all_goals first
    | exact Option.noConfusion h
    | (injection h with h
       injection h with h1 h2
       subst h2
       first
         | exact h1.symm
         | exact absurd hch (by decide))

theorem del_hkey_k_unchanged (ic : Bool) (reg : Registry) (hk k : Str)
    (reg' : Registry) (res : String)
    (h : del_hkey_k ic reg hk k = some (reg', res))
    (hch : changedFlag res = false) : reg' = reg := by
  simp only [del_hkey_k] at h
  repeat' split at h
  all_goals first
    | exact Option.noConfusion h
    | (injection h with h
       injection h with h1 h2
       subst h2
       first
         | exact h1.symm
         | exact absurd hch (by decide))

theorem del_hkey_kv_unchanged (ic : Bool) (reg : Registry) (hk k v : Str)
    (reg' : Registry) (res : String)
    (h : del_hkey_kv ic reg hk k v = some (reg', res))
    (hch : changedFlag res = false) : reg' = reg := by
  simp only [del_hkey_kv] at h
  repeat' split at h
  all_goals first
    | exact Option.noConfusion h
    | (injection h with h
       injection h with h1 h2
       subst h2
       first
         | exact h1.symm
         | exact absurd hch (by decide))

theorem upd_hkey_unchanged (ic : Bool) (reg : Registry) (o n : Str)
    (reg' : Registry) (res : String)
    (h : upd_hkey ic reg o n = some (reg', res))
    (hch : changedFlag res = false) : reg' = reg := by
  simp only [upd_hkey] at h
  repeat' split at h
  all_goals first
    | exact Option.noConfusion h
    | (injection h with h
       injection h with h1 h2
       subst h2
       first
         | exact h1.symm
         | exact absurd hch (by decide))

theorem upd_key_unchanged (ic : Bool) (reg : Registry) (hk kOld kNew : Str)
    (reg' : Registry) (res : String)
    (h : upd_key ic reg hk kOld kNew = some (reg', res))
    (hch : changedFlag res = false) : reg' = reg := by
  simp only [upd_key] at h
  repeat' split at h
  all_goals first
    | exact Option.noConfusion h
    | (injection h with h
       injection h with h1 h2
       subst h2
       first
         | exact h1.symm
         | exact absurd hch (by decide))

theorem upd_val_unchanged (ic : Bool) (reg : Registry) (hk k v : Str)
    (reg' : Registry) (res : String)
    (h : upd_val ic reg hk k v = some (reg', res))
    (hch : changedFlag res = false) : reg' = reg := by
  simp only [upd_val] at h
  repeat' split at h
  all_goals first
    | exact Option.noConfusion h
    | (injection h with h
       injection h with h1 h2
       subst h2
       first
         | exact h1.symm
         | exact absurd hch (by decide))

/-- Claim C7: every logical non-mutation result code (already-exists,
not-found, value-mismatch, no-op rename, caught-update-fail) is outside
`res_modind`, so main() reports `changed=false` and performs no write;
and every mutating operation whose result code is outside `res_modind`
returns its registry argument unchanged.  In particular delete key+value
with a mismatching value returns `hkey_kv_value_mismatch`, `changed=false`
and no write. -/
theorem C7_nonmutation_no_change_no_write :
    ((["hkey_already_exists", "hkey_kv_already_exists", "hkey_notremoved",
       "hkey_k_keynotfound", "hkey_k_hkeynotfound", "hkey_kv_value_mismatch",
       "hkey_kv_keynotfound", "hkey_kv_hkeynotfound", "hkey_notfound",
       "hkey_notupdated", "key_notupdated", "key_notfound", "key_update_fail",
       "val_notupdated", "val_update_fail"].all
        fun r => !(changedFlag r) && !(mainWrites r)) = true)
    ∧ (∀ (reg : Registry) (hk k v : Str) (ks : KeySet) (v0 : Str),
        alGet reg hk = some ks → alGet ks k = some v0 → v0 ≠ v →
        del_hkey_kv false reg hk k v = some (reg, "hkey_kv_value_mismatch")
          ∧ changedFlag "hkey_kv_value_mismatch" = false
          ∧ mainWrites "hkey_kv_value_mismatch" = false)
    ∧ (∀ (ic : Bool) (reg : Registry) (hk : Str) (reg' : Registry) (res : String),
        add_hkey ic reg hk = (reg', res) → changedFlag res = false → reg' = reg)
    ∧ (∀ (ic : Bool) (reg : Registry) (hk k v : Str) (reg' : Registry) (res : String),
        add_hkey_kv ic reg hk k v = some (reg', res) → changedFlag res = false → reg' = reg)
    ∧ (∀ (ic : Bool) (reg : Registry) (hk : Str) (reg' : Registry) (res : String),
        del_hkey ic reg hk = some (reg', res) → changedFlag res = false → reg' = reg)
    ∧ (∀ (ic : Bool) (reg : Registry) (hk k : Str) (reg' : Registry) (res : String),
        del_hkey_k ic reg hk k = some (reg', res) → changedFlag res = false → reg' = reg)
    ∧ (∀ (ic : Bool) (reg : Registry) (hk k v : Str) (reg' : Registry) (res : String),
        del_hkey_kv ic reg hk k v = some (reg', res) → changedFlag res = false → reg' = reg)
    ∧ (∀ (ic : Bool) (reg : Registry) (o n : Str) (reg' : Registry) (res : String),
        upd_hkey ic reg o n = some (reg', res) → changedFlag res = false → reg' = reg)
    ∧ (∀ (ic : Bool) (reg : Registry) (hk kOld kNew : Str) (reg' : Registry) (res : String),
        upd_key ic reg hk kOld kNew = some (reg', res) → changedFlag res = false → reg' = reg)
    ∧ (∀ (ic : Bool) (reg : Registry) (hk k v : Str) (reg' : Registry) (res : String),
        upd_val ic reg hk k v = some (reg', res) → changedFlag res = false → reg' = reg) := by
  refine ⟨by decide, ?_, add_hkey_unchanged, add_hkey_kv_unchanged,
    del_hkey_unchanged, del_hkey_k_unchanged, del_hkey_kv_unchanged,
    upd_hkey_unchanged, upd_key_unchanged, upd_val_unchanged⟩
  intro reg hk k v ks v0 h1 h2 hne
  have hpy : pyIn false hk (keys reg) = true := pyIn_of_alGet_some h1
  have hpk : pyIn false k (keys ks) = true := pyIn_of_alGet_some h2
  refine ⟨?_, by decide, by decide⟩
  simp [del_hkey_kv, hpy, hpk, h1, h2, hne]

theorem C7_nonmutation_no_change_no_write_witness :
    alGet [("[X]".data, [("K".data, "V".data)])] "[X]".data
      = some [("K".data, "V".data)]
    ∧ alGet [("K".data, "V".data)] "K".data = some "V".data
    ∧ "V".data ≠ "OTHER".data
    ∧ (del_hkey_kv false [("[X]".data, [("K".data, "V".data)])]
        "[X]".data "K".data "OTHER".data
        = some ([("[X]".data, [("K".data, "V".data)])], "hkey_kv_value_mismatch")
      ∧ changedFlag "hkey_kv_value_mismatch" = false
      ∧ mainWrites "hkey_kv_value_mismatch" = false) :=
  ⟨by decide, by decide, by decide,
   C7_nonmutation_no_change_no_write.2.1
     [("[X]".data, [("K".data, "V".data)])] "[X]".data "K".data "OTHER".data
     [("K".data, "V".data)] "V".data (by decide) (by decide) (by decide)⟩

end Regedit

namespace Regedit

/-- Claim C8: with HKEY `[HKEY_LOCAL_MACHINE\A]` stored (parse builds the
primary registry with original casing and the CaseIndex lower-cased), the
HKEY-exists query with needle `[hkey_local_machine\a]` returns the
case-insensitive `hkey_exists_ic` under ignore_case (lower-cased needle
against the CaseIndex) and `hkey_notexists` in default mode (untransformed
needle against the primary registry). -/
theorem C8_chk_hkey_case_modes :
    read_registry (some "[HKEY_LOCAL_MACHINE\\A]\n".data)
      = some ⟨[("[HKEY_LOCAL_MACHINE\\A]".data, [])],
              [("[hkey_local_machine\\a]".data, [])], [],
              "read_registry_success"⟩
    ∧ chk_hkey true [("[HKEY_LOCAL_MACHINE\\A]".data, [])]
        [("[hkey_local_machine\\a]".data, [])] "[hkey_local_machine\\a]".data
        = "hkey_exists_ic"
    ∧ chk_hkey false [("[HKEY_LOCAL_MACHINE\\A]".data, [])]
        [("[hkey_local_machine\\a]".data, [])] "[hkey_local_machine\\a]".data
        = "hkey_notexists" := by
  decide

/-- Claim C9 (counterexample): a preamble of two raw lines `A` and `B` is
not stored as an opaque blob re-emitted verbatim: parse concatenates the
stripped lines into the single line `AB`, and re-serializing does not
reproduce the original bytes. -/
theorem C9_counterexample_multiline_preamble_merged :
    read_registry (some "A\nB\n\n[Y]\n\n".data)
      = some ⟨[("[Y]".data, [])], [("[y]".data, [])], "AB".data,
              "read_registry_success"⟩
    ∧ roundTrip "A\nB\n\n[Y]\n\n".data ≠ some "A\nB\n\n[Y]\n\n".data := by
  decide

/-- Claim C9 (amended): the preamble is computed by concatenating the
whitespace-stripped physical lines preceding the first HKEY line, with no
separator between them, and is re-emitted by the serializer as one line
followed by a blank line; hence a single clean preamble line is
reproduced verbatim while a multi-line preamble is merged into one line. -/
theorem C9_preamble_concatenation (ls : List Str) (hk0 : Str) (rest : List Str)
    (h : ∀ l ∈ ls, ¬ ((strip l).head? = some '['))
    (hhk : (strip hk0).head? = some '[') :
    preambleOf ((ls.map fun l => l ++ ['\n']) ++ hk0 :: rest)
      = (ls.map strip).flatten
    ∧ ∀ (pre : Str) (reg : Registry),
        writeContent pre reg = pre ++ '\n' :: '\n' :: joinNlTerm (regRaw reg) := by
  constructor
  · induction ls with
    | nil =>
      simp only [List.map_nil, List.nil_append, preambleOf, List.flatten_nil]
      rw [if_pos (by rw [decide_eq_true_eq]; exact hhk)]
    | cons l ls ih =>
      have hl : ¬ ((strip l).head? = some '[') := h l (by simp)
      simp only [List.map_cons, List.cons_append, preambleOf, List.flatten_cons]
      rw [strip_append_nl, if_neg (by rw [decide_eq_true_eq]; exact hl)]
      exact congrArg (fun t => strip l ++ t) (ih (fun x hx => h x (by simp [hx])))
  · intro pre reg
    simp [writeContent, rawLines, joinNlTerm]

theorem C9_preamble_concatenation_witness :
    (∀ l ∈ (["A".data, " B ".data] : List Str), ¬ ((strip l).head? = some '['))
    ∧ (strip "[X]".data).head? = some '['
    ∧ preambleOf (((["A".data, " B ".data] : List Str).map fun l => l ++ ['\n'])
        ++ "[X]".data :: []) = "AB".data :=
  ⟨by decide, by decide,
   (C9_preamble_concatenation ["A".data, " B ".data] "[X]".data []
     (by decide) (by decide)).1⟩

/-- Claim C10 (counterexample): not every case-insensitive-mode mutation
that finds its key only via `_in` crashes: `upd_val` with the exact hkey
casing but a differently-cased key has its KeyError caught and returns
the result code `val_update_fail` (no mutation), rather than raising. -/
theorem C10_counterexample_upd_val_caught :
    upd_val true [("[X]".data, [("K".data, "v".data)])]
      "[X]".data "k".data "w".data
      = some ([("[X]".data, [("K".data, "v".data)])], "val_update_fail") := by
  decide

/-- Claim C10 (amended): in ignore_case mode, when a mutating operation's
hkey is found only via the case-folded `_in` test (the exact casing is
absent), indexing the primary registry raises an uncaught KeyError
(`none`): this holds for add key+value, delete key and set value; delete
key also crashes when only the key's casing differs; set value, however,
catches that KeyError and returns `val_update_fail` without mutating. -/
theorem C10_ignorecase_mutation_crashes :
    (∀ (reg : Registry) (hk k v : Str), pyIn true hk (keys reg) = true →
      alGet reg hk = none → add_hkey_kv true reg hk k v = none)
    ∧ (∀ (reg : Registry) (hk k : Str), pyIn true hk (keys reg) = true →
        alGet reg hk = none → del_hkey_k true reg hk k = none)
    ∧ (∀ (reg : Registry) (hk k : Str) (ks : KeySet), alGet reg hk = some ks →
        pyIn true k (keys ks) = true → alGet ks k = none →
        del_hkey_k true reg hk k = none)
    ∧ (∀ (reg : Registry) (hk k v : Str), pyIn true hk (keys reg) = true →
        alGet reg hk = none → upd_val true reg hk k v = none)
    ∧ (∀ (reg : Registry) (hk k v : Str) (ks : KeySet), alGet reg hk = some ks →
        pyIn true k (keys ks) = true → alGet ks k = none →
        upd_val true reg hk k v = some (reg, "val_update_fail")) := by
  refine ⟨?_, ?_, ?_, ?_, ?_⟩
  · intro reg hk k v hpy hget
    simp [add_hkey_kv, hpy, hget]
  · intro reg hk k hpy hget
    simp [del_hkey_k, hpy, hget]
  · intro reg hk k ks hget hpk hgk
    have hpy : pyIn true hk (keys reg) = true := pyIn_of_alGet_some hget
    simp [del_hkey_k, hpy, hget, hpk, hgk]
  · intro reg hk k v hpy hget
    simp [upd_val, hpy, hget]
  · intro reg hk k v ks hget hpk hgk
    have hpy : pyIn true hk (keys reg) = true := pyIn_of_alGet_some hget
    simp [upd_val, hpy, hget, hpk, hgk]

theorem C10_ignorecase_mutation_crashes_witness :
    pyIn true "[x]".data (keys [("[X]".data, ([] : KeySet))]) = true
    ∧ alGet [("[X]".data, ([] : KeySet))] "[x]".data = none
    ∧ add_hkey_kv true [("[X]".data, ([] : KeySet))] "[x]".data
        "K".data "v".data = none :=
  ⟨by decide, by decide,
   C10_ignorecase_mutation_crashes.1 [("[X]".data, ([] : KeySet))]
     "[x]".data "K".data "v".data (by decide) (by decide)⟩

end Regedit
